import Mathlib

/-!
Verification of the Local Secure State Store of the spirit-messenger
desktop client (`src-tauri/src/auth.rs`, `auth_preferences.rs`,
`settings.rs`).

The Rust code is shallowly embedded: the in-memory record guarded by each
manager's `Mutex` becomes an explicit state value, filesystem and RNG
effects become explicit parameters (file contents in, file contents out;
the random nonce and random key are inputs), and `Result<T, String>`
becomes `Except String T` (or an inductive error type where the claims
talk about distinguishing error cases).  The AES-256-GCM cipher used via
the `aes_gcm` crate, the base64 `STANDARD` engine and UTF-8
encoding/decoding are implemented concretely below, following their
standard definitions (NIST SP 800-38D / FIPS 197, RFC 4648, RFC 3629),
which is what those crates implement.  Bytes are `Nat` values; `u8`
arithmetic is embedded with explicit `% 256` where wrapping matters.
-/

/-- A list of `Nat`s represents a byte string when every entry is < 256
(the embedding of Rust `Vec<u8>` / `[u8; n]`). -/
def IsBytes (l : List Nat) : Prop := ∀ b ∈ l, b < 256

instance : DecidablePred IsBytes := fun l =>
  inferInstanceAs (Decidable (∀ b ∈ l, b < 256))

/-! ## Data model (`auth.rs`, `auth_preferences.rs`, `settings.rs`) -/

/-- `AuthUser` from `auth.rs`. -/
structure AuthUser where
  id : String
  email : String
  username : String
  display_name : String
  personal_message : Option String
  display_picture_url : Option String
  presence_status : Option String
deriving DecidableEq

/-- `AuthData` from `auth.rs`: user plus access and refresh tokens. -/
structure AuthData where
  user : AuthUser
  token : String
  refresh_token : String
deriving DecidableEq

/-- `AuthPreferences` from `auth_preferences.rs`. -/
structure AuthPreferences where
  remember_me : Bool
  remember_password : Bool
  sign_in_automatically : Bool
  remembered_email : Option String
  encrypted_password : Option String
deriving DecidableEq

/-- `impl Default for AuthPreferences` (`auth_preferences.rs` lines 24-34). -/
def AuthPreferences.default : AuthPreferences :=
  { remember_me := false
    remember_password := false
    sign_in_automatically := true
    remembered_email := none
    encrypted_password := none }

/-- `NotificationSettings` from `settings.rs`. -/
structure NotificationSettings where
  enabled : Bool
  sound_enabled : Bool
  sound_volume : Nat
  desktop_alerts : Bool
deriving DecidableEq

/-- `StartupSettings` from `settings.rs`. -/
structure StartupSettings where
  auto_launch : Bool
  start_minimized : Bool
deriving DecidableEq

/-- `FileSettings` from `settings.rs`. -/
structure FileSettings where
  download_location : String
  auto_accept_from : List String
deriving DecidableEq

/-- `AppSettings` from `settings.rs`. -/
structure AppSettings where
  notifications : NotificationSettings
  startup : StartupSettings
  files : FileSettings
deriving DecidableEq

/-- `default_settings()` from `settings.rs` lines 43-60. -/
def default_settings : AppSettings :=
  { notifications :=
      { enabled := true, sound_enabled := true, sound_volume := 80
        desktop_alerts := true }
    startup := { auto_launch := false, start_minimized := false }
    files := { download_location := "", auto_accept_from := [] } }

/-! ## AuthManager state observations and transitions (`auth.rs`)

The manager's state is the contents of its `Mutex<Option<AuthData>>`. -/

namespace AuthManager

/-- `AuthManager::get_user`. -/
def get_user (s : Option AuthData) : Option AuthUser := s.map (·.user)

/-- `AuthManager::get_token`. -/
def get_token (s : Option AuthData) : Option String := s.map (·.token)

/-- `AuthManager::get_refresh_token`. -/
def get_refresh_token (s : Option AuthData) : Option String :=
  s.map (·.refresh_token)

/-- `AuthManager::is_authenticated`. -/
def is_authenticated (s : Option AuthData) : Bool := s.isSome

/-- State transition of `AuthManager::set_auth` (the in-memory part). -/
def set_auth (_s : Option AuthData) (user : AuthUser) (token : String)
    (refresh_token : String) : Option AuthData :=
  some { user := user, token := token, refresh_token := refresh_token }

/-- State transition of `AuthManager::update_user`: patches only the user
field when authenticated, errors otherwise. -/
def update_user (s : Option AuthData) (user_updates : AuthUser) :
    Except String (Option AuthData) :=
  match s with
  | some data => .ok (some { data with user := user_updates })
  | none => .error "No user is currently authenticated"

/-- State transition of `AuthManager::clear_auth`. -/
def clear_auth (_s : Option AuthData) : Option AuthData := none

end AuthManager

/-! ## AuthPreferencesManager in-memory transitions (`auth_preferences.rs`) -/

namespace AuthPreferencesManager

/-- State transition of `AuthPreferencesManager::clear_preferences`:
the record is replaced by `AuthPreferences::default()`. -/
def clear_preferences (_s : AuthPreferences) : AuthPreferences :=
  AuthPreferences.default

/-- `AuthPreferencesManager::get_or_create_encryption_key`
(`auth_preferences.rs` lines 115-146).  The filesystem is explicit:
`file` is the current contents of the key file (`none` when the file does
not exist), `fresh` is the 32 random bytes `rand::thread_rng` would
produce.  Returns the key together with the key file contents after the
call. -/
def get_or_create_encryption_key (file : Option (List Nat))
    (fresh : List Nat) : Except String (List Nat × Option (List Nat)) :=
  match file with
  | some key_data =>
      if key_data.length ≠ 32 then .error "Invalid encryption key size"
      else .ok (key_data, some key_data)
  | none => .ok (fresh, some fresh)

/-- `AuthPreferencesManager::load_from_disk` (`auth_preferences.rs` lines
198-211).  `parse` embeds `serde_json::from_str::<AuthPreferences>`,
`file` the storage file contents (`none` = file does not exist), `mem`
the current in-memory record.  Returns the `Result` together with the
in-memory record after the call. -/
def load_from_disk (parse : String → Except String AuthPreferences)
    (file : Option String) (mem : AuthPreferences) :
    Except String Unit × AuthPreferences :=
  match file with
  | none => (.ok (), mem)
  | some contents =>
      match parse contents with
      | .ok preferences => (.ok (), preferences)
      | .error e => (.error ("Failed to parse auth preferences: " ++ e), mem)

/-- `AuthPreferencesManager::new` (`auth_preferences.rs` lines 45-61):
starts from the default record, attempts a load, and on load failure only
logs the error, keeping the in-memory state the load left behind. -/
def new (parse : String → Except String AuthPreferences)
    (file : Option String) : AuthPreferences :=
  (load_from_disk parse file AuthPreferences.default).2

end AuthPreferencesManager

namespace SettingsManager

/-- `SettingsManager::load_from_disk` (`settings.rs` lines 124-138). -/
def load_from_disk (parse : String → Except String AppSettings)
    (file : Option String) (mem : AppSettings) :
    Except String Unit × AppSettings :=
  match file with
  | none => (.ok (), mem)
  | some contents =>
      match parse contents with
      | .ok settings => (.ok (), settings)
      | .error e => (.error ("Failed to parse settings: " ++ e), mem)

/-- `SettingsManager::new` (`settings.rs` lines 70-82). -/
def new (parse : String → Except String AppSettings)
    (file : Option String) : AppSettings :=
  (load_from_disk parse file default_settings).2

/-- State transition of `SettingsManager::reset_settings`. -/
def reset_settings (_s : AppSettings) : AppSettings := default_settings

end SettingsManager

namespace AuthManager

/-- `AuthManager::load_from_disk` (`auth.rs` lines 118-132): parses an
`AuthData` and installs it as `Some`; parse failure leaves the state. -/
def load_from_disk (parse : String → Except String AuthData)
    (file : Option String) (mem : Option AuthData) :
    Except String Unit × Option AuthData :=
  match file with
  | none => (.ok (), mem)
  | some contents =>
      match parse contents with
      | .ok auth_data => (.ok (), some auth_data)
      | .error e => (.error ("Failed to parse auth data: " ++ e), mem)

/-- `AuthManager::new` (`auth.rs` lines 39-51). -/
def new (parse : String → Except String AuthData)
    (file : Option String) : Option AuthData :=
  (load_from_disk parse file none).2

end AuthManager

/-! ## Filesystem-operation traces of the save paths (C4)

`save_to_disk` performs a sequence of filesystem effects; the claims about
file permissions are about which effects occur and in which order, so the
embedding records them as an explicit trace.  Serialization is embedded on
its success path (the claims quantify over successful saves). -/

/-- One filesystem effect performed by a `save_to_disk` implementation. -/
inductive FsOp where
  | createParentDir : FsOp
  | writeFile : FsOp
  | setPermissions (mode : Nat) : FsOp
  | removeFile : FsOp
deriving DecidableEq

/-- Trace of `AuthPreferencesManager::save_to_disk` (`auth_preferences.rs`
lines 214-239) on the Unix (`cfg(unix)`) success path: create the parent
directory, write the JSON, then set mode `0o600`. -/
def authPrefs_save_to_disk_ops : List FsOp :=
  [.createParentDir, .writeFile, .setPermissions 0o600]

/-- Trace of `AuthManager::save_to_disk` (`auth.rs` lines 135-159) on the
success path.  `auth_data_present` is whether the guarded record is
`Some`; `file_exists` whether the session file currently exists. -/
def auth_save_to_disk_ops (auth_data_present : Bool) (file_exists : Bool) :
    List FsOp :=
  if auth_data_present then [.createParentDir, .writeFile]
  else if file_exists then [.removeFile] else []

/-- Trace of `SettingsManager::save_to_disk` (`settings.rs` lines
141-157) on the success path. -/
def settings_save_to_disk_ops : List FsOp :=
  [.createParentDir, .writeFile]

/-! ## Lock/IO event traces of the mutating setters (C6)

Each manager guards its record with one `std::sync::Mutex`.  The trace
records, in program order, every acquisition and release of that lock and
every filesystem effect; Rust guard scopes determine where the releases
fall (a temporary guard in a `*lock() = v;` statement is dropped at the
end of the statement; the guard taken at the top of `save_to_disk` is
dropped when `save_to_disk` returns). -/

/-- One event in the execution of a manager method. -/
inductive StoreEv where
  | lockAcquire : StoreEv
  | lockRelease : StoreEv
  | memWrite : StoreEv
  | fsCreateDir : StoreEv
  | fsWrite : StoreEv
  | fsSetPerm : StoreEv
  | fsRemove : StoreEv
deriving DecidableEq

/-- Events of `AuthPreferencesManager::save_to_disk`: the guard is taken
at the top of the function and dropped only when it returns, so every
filesystem effect happens with the lock held. -/
def authPrefs_save_to_disk_events : List StoreEv :=
  [.lockAcquire, .fsCreateDir, .fsWrite, .fsSetPerm, .lockRelease]

/-- Events of `SettingsManager::save_to_disk`. -/
def settings_save_to_disk_events : List StoreEv :=
  [.lockAcquire, .fsCreateDir, .fsWrite, .lockRelease]

/-- Events of `AuthManager::save_to_disk` (success path). -/
def auth_save_to_disk_events (auth_data_present : Bool)
    (file_exists : Bool) : List StoreEv :=
  [StoreEv.lockAcquire] ++
    (if auth_data_present then [StoreEv.fsCreateDir, StoreEv.fsWrite]
     else if file_exists then [StoreEv.fsRemove] else []) ++
    [StoreEv.lockRelease]

/-- Events of `AuthPreferencesManager::save_preferences` after the
optional encryption (which touches only the key file via its own path and
not the record lock): store under the lock, drop the temporary guard,
then call `save_to_disk`. -/
def save_preferences_events : List StoreEv :=
  [.lockAcquire, .memWrite, .lockRelease] ++ authPrefs_save_to_disk_events

/-- Events of `AuthPreferencesManager::clear_preferences`. -/
def clear_preferences_events : List StoreEv :=
  [.lockAcquire, .memWrite, .lockRelease] ++ authPrefs_save_to_disk_events

/-- Events of `AuthManager::set_auth`. -/
def set_auth_events (file_exists : Bool) : List StoreEv :=
  [.lockAcquire, .memWrite, .lockRelease] ++
    auth_save_to_disk_events true file_exists

/-- Events of `AuthManager::update_user`; `authenticated` selects the
branch on the guarded `Option` (the explicit `drop(auth_data)` in the
source releases the lock before `save_to_disk` is called). -/
def update_user_events (authenticated : Bool) (file_exists : Bool) :
    List StoreEv :=
  if authenticated then
    [.lockAcquire, .memWrite, .lockRelease] ++
      auth_save_to_disk_events true file_exists
  else [.lockAcquire, .lockRelease]

/-- Events of `AuthManager::clear_auth`. -/
def clear_auth_events (file_exists : Bool) : List StoreEv :=
  [.lockAcquire, .memWrite, .lockRelease] ++
    auth_save_to_disk_events false file_exists

/-- Events of `SettingsManager::update_notification_settings` (the
source drops the guard explicitly before calling `save_to_disk`). -/
def update_notification_settings_events : List StoreEv :=
  [.lockAcquire, .memWrite, .lockRelease] ++ settings_save_to_disk_events

/-- Events of `SettingsManager::update_startup_settings`. -/
def update_startup_settings_events : List StoreEv :=
  [.lockAcquire, .memWrite, .lockRelease] ++ settings_save_to_disk_events

/-- Events of `SettingsManager::update_file_settings`. -/
def update_file_settings_events : List StoreEv :=
  [.lockAcquire, .memWrite, .lockRelease] ++ settings_save_to_disk_events

/-- Events of `SettingsManager::reset_settings`. -/
def reset_settings_events : List StoreEv :=
  [.lockAcquire, .memWrite, .lockRelease] ++ settings_save_to_disk_events

/-- `anyWriteHeld depth evs` is `true` when some `fsWrite` in `evs`
happens while the lock depth (starting from `depth`) is positive. -/
def anyWriteHeld : Nat → List StoreEv → Bool
  | _, [] => false
  | depth, .lockAcquire :: evs => anyWriteHeld (depth + 1) evs
  | depth, .lockRelease :: evs => anyWriteHeld (depth - 1) evs
  | depth, .fsWrite :: evs => depth ≠ 0 || anyWriteHeld depth evs
  | depth, _ :: evs => anyWriteHeld depth evs

/-! ## base64 (STANDARD engine of the `base64` crate, RFC 4648) -/

/-- Alphabet of the base64 STANDARD engine (RFC 4648). -/
def b64Alphabet : List Char :=
  ['A','B','C','D','E','F','G','H','I','J','K','L','M','N','O','P',
   'Q','R','S','T','U','V','W','X','Y','Z',
   'a','b','c','d','e','f','g','h','i','j','k','l','m','n','o','p',
   'q','r','s','t','u','v','w','x','y','z',
   '0','1','2','3','4','5','6','7','8','9','+','/']

/-- Sextet value to alphabet character. -/
def b64Char (v : Nat) : Char := b64Alphabet.getD v 'A'

/-- Alphabet character back to its sextet value. -/
def b64Val (c : Char) : Option Nat := b64Alphabet.indexOf? c

/-- base64 STANDARD encoding (with `=` padding) of a byte list. -/
def base64Encode : List Nat → List Char
  | [] => []
  | [b0] => [b64Char (b0 / 4), b64Char (b0 % 4 * 16), '=', '=']
  | [b0, b1] =>
      [b64Char (b0 / 4), b64Char (b0 % 4 * 16 + b1 / 16),
       b64Char (b1 % 16 * 4), '=']
  | b0 :: b1 :: b2 :: rest =>
      b64Char (b0 / 4) :: b64Char (b0 % 4 * 16 + b1 / 16) ::
      b64Char (b1 % 16 * 4 + b2 / 64) :: b64Char (b2 % 64) ::
      base64Encode rest

/-- base64 STANDARD decoding: requires canonical padding and zero
trailing bits, as the `base64` crate's `STANDARD` engine does. -/
def base64Decode : List Char → Option (List Nat)
  | [] => some []
  | c0 :: c1 :: c2 :: c3 :: rest =>
      match b64Val c0, b64Val c1 with
      | some v0, some v1 =>
          if c2 = '=' then
            if c3 = '=' ∧ rest = [] ∧ v1 % 16 = 0 then
              some [v0 * 4 + v1 / 16]
            else none
          else
            match b64Val c2 with
            | some v2 =>
                if c3 = '=' then
                  if rest = [] ∧ v2 % 4 = 0 then
                    some [v0 * 4 + v1 / 16, v1 % 16 * 16 + v2 / 4]
                  else none
                else
                  match b64Val c3 with
                  | some v3 =>
                      (base64Decode rest).map
                        (fun bs => (v0 * 4 + v1 / 16) :: (v1 % 16 * 16 + v2 / 4) ::
                          ((v2 % 4 * 64 + v3) :: bs))
                  | none => none
            | none => none
      | _, _ => none
  | _ => none

theorem b64Val_b64Char : ∀ v < 64, b64Val (b64Char v) = some v := by decide

theorem b64Char_ne_pad : ∀ v < 64, b64Char v ≠ '=' := by decide


theorem base64_roundtrip : ∀ l : List Nat, (∀ b ∈ l, b < 256) →
    base64Decode (base64Encode l) = some l := by
  intro l
  induction l using base64Encode.induct with
  | case1 => intro _; rfl
  | case2 b0 =>
      intro h
      have hb0 : b0 < 256 := h b0 (by simp)
      have h1 : b0 / 4 < 64 := by omega
      have h2 : b0 % 4 * 16 < 64 := by omega
      simp only [base64Encode, base64Decode, b64Val_b64Char _ h1,
        b64Val_b64Char _ h2]
      simp [show b0 % 4 * 16 % 16 = 0 from by omega,
        show b0 / 4 * 4 + b0 % 4 * 16 / 16 = b0 from by omega]
      omega
  | case3 b0 b1 =>
      intro h
      have hb0 : b0 < 256 := h b0 (by simp)
      have hb1 : b1 < 256 := h b1 (by simp)
      have h1 : b0 / 4 < 64 := by omega
      have h2 : b0 % 4 * 16 + b1 / 16 < 64 := by omega
      have h3 : b1 % 16 * 4 < 64 := by omega
      simp only [base64Encode, base64Decode, b64Val_b64Char _ h1,
        b64Val_b64Char _ h2, b64Val_b64Char _ h3]
      rw [if_neg (b64Char_ne_pad _ h3)]
      simp [show b1 % 16 * 4 % 4 = 0 from by omega,
        show b0 / 4 * 4 + (b0 % 4 * 16 + b1 / 16) / 16 = b0 from by omega,
        show (b0 % 4 * 16 + b1 / 16) % 16 * 16 + b1 % 16 * 4 / 4 = b1 from by omega]
      omega
  | case4 b0 b1 b2 rest ih =>
      intro h
      have hb0 : b0 < 256 := h b0 (by simp)
      have hb1 : b1 < 256 := h b1 (by simp)
      have hb2 : b2 < 256 := h b2 (by simp)
      have hrest : ∀ b ∈ rest, b < 256 := fun b hb => h b (by simp [hb])
      have h1 : b0 / 4 < 64 := by omega
      have h2 : b0 % 4 * 16 + b1 / 16 < 64 := by omega
      have h3 : b1 % 16 * 4 + b2 / 64 < 64 := by omega
      have h4 : b2 % 64 < 64 := by omega
      simp only [base64Encode, base64Decode, b64Val_b64Char _ h1,
        b64Val_b64Char _ h2, b64Val_b64Char _ h3, b64Val_b64Char _ h4]
      rw [if_neg (b64Char_ne_pad _ h3), if_neg (b64Char_ne_pad _ h4)]
      rw [ih hrest]
      simp [show b0 / 4 * 4 + (b0 % 4 * 16 + b1 / 16) / 16 = b0 from by omega,
        show (b0 % 4 * 16 + b1 / 16) % 16 * 16 + (b1 % 16 * 4 + b2 / 64) / 4 = b1
          from by omega,
        show (b1 % 16 * 4 + b2 / 64) % 4 * 64 + b2 % 64 = b2 from by omega]

theorem base64Encode_ne_nil_iff (l : List Nat) :
    base64Encode l = [] ↔ l = [] := by
  cases l with
  | nil => simp [base64Encode]
  | cons a t => cases t with
    | nil => simp [base64Encode]
    | cons b t2 => cases t2 <;> simp [base64Encode]

/-! ## UTF-8 (`str::as_bytes` / `String::from_utf8`, RFC 3629) -/

/-- UTF-8 encoding of one scalar value (RFC 3629), in the arithmetic form
of the `u8` byte computations. -/
def utf8EncodeChar (c : Char) : List Nat :=
  let n := c.toNat
  if n < 128 then [n]
  else if n < 2048 then [192 + n / 64, 128 + n % 64]
  else if n < 65536 then [224 + n / 4096, 128 + n / 64 % 64, 128 + n % 64]
  else [240 + n / 262144, 128 + n / 4096 % 64, 128 + n / 64 % 64, 128 + n % 64]

/-- `str::as_bytes` / `String::into_bytes`: UTF-8 bytes of a string. -/
def utf8Encode (s : List Char) : List Nat := s.flatMap utf8EncodeChar

/-- A UTF-8 continuation byte. -/
def isCont (b : Nat) : Prop := 128 ≤ b ∧ b < 192

instance (b : Nat) : Decidable (isCont b) := instDecidableAnd

/-- Decode one UTF-8 sequence from the front of a byte stream, rejecting
stray or missing continuation bytes, overlong encodings, surrogates and
values above U+10FFFF, as `String::from_utf8` does. -/
def utf8DecodeOne (b0 : Nat) (rest : List Nat) : Option (Char × List Nat) :=
  if b0 < 128 then some (Char.ofNat b0, rest)
  else if b0 < 192 then none
  else if b0 < 224 then
    match rest with
    | b1 :: rest2 =>
      if isCont b1 then
        if 128 ≤ (b0 - 192) * 64 + (b1 - 128) then
          some (Char.ofNat ((b0 - 192) * 64 + (b1 - 128)), rest2)
        else none
      else none
    | [] => none
  else if b0 < 240 then
    match rest with
    | b1 :: b2 :: rest3 =>
      if isCont b1 ∧ isCont b2 then
        if 2048 ≤ (b0 - 224) * 4096 + (b1 - 128) * 64 + (b2 - 128) ∧
            ((b0 - 224) * 4096 + (b1 - 128) * 64 + (b2 - 128) < 55296 ∨
             57343 < (b0 - 224) * 4096 + (b1 - 128) * 64 + (b2 - 128)) then
          some (Char.ofNat ((b0 - 224) * 4096 + (b1 - 128) * 64 + (b2 - 128)),
            rest3)
        else none
      else none
    | _ => none
  else if b0 < 248 then
    match rest with
    | b1 :: b2 :: b3 :: rest4 =>
      if isCont b1 ∧ isCont b2 ∧ isCont b3 then
        if 65536 ≤ (b0 - 240) * 262144 + (b1 - 128) * 4096 +
            (b2 - 128) * 64 + (b3 - 128) ∧
            (b0 - 240) * 262144 + (b1 - 128) * 4096 +
            (b2 - 128) * 64 + (b3 - 128) < 1114112 then
          some (Char.ofNat ((b0 - 240) * 262144 + (b1 - 128) * 4096 +
            (b2 - 128) * 64 + (b3 - 128)), rest4)
        else none
      else none
    | _ => none
  else none

set_option maxRecDepth 4000 in
/-- A successful single-sequence decode consumes a suffix. -/
theorem utf8DecodeOne_length {b0 : Nat} {rest rest2 : List Nat} {c : Char}
    (h : utf8DecodeOne b0 rest = some (c, rest2)) :
    rest2.length ≤ rest.length := by
  unfold utf8DecodeOne at h
  repeat' split at h
  all_goals cases h
  all_goals simp
  all_goals omega

/-- `String::from_utf8` validation and decoding. -/
def utf8Decode : List Nat → Option (List Char)
  | [] => some []
  | b0 :: rest =>
    match h : utf8DecodeOne b0 rest with
    | some (c, rest2) => (utf8Decode rest2).map (fun cs => c :: cs)
    | none => none
termination_by l => l.length
decreasing_by
  have := utf8DecodeOne_length h
  simp only [List.length_cons]
  omega

/-- The scalar-value bounds of a `Char`, in `Nat` form. -/
theorem Char.toNat_valid (c : Char) :
    c.toNat < 55296 ∨ (57343 < c.toNat ∧ c.toNat < 1114112) := by
  have h := c.valid
  unfold isValidChar at h
  rcases h with h | ⟨h1, h2⟩
  · exact Or.inl h
  · exact Or.inr ⟨h1, h2⟩

/-- Decoding the encoding of one character consumes exactly it. -/
theorem utf8DecodeOne_encodeChar (c : Char) (bs : List Nat) :
    ∃ b0 tail, utf8EncodeChar c ++ bs = b0 :: tail ∧
      utf8DecodeOne b0 tail = some (c, bs) := by
  have hv := Char.toNat_valid c
  have hofn := Char.ofNat_toNat c
  by_cases h1 : c.toNat < 128
  · refine ⟨c.toNat, bs, by simp [utf8EncodeChar, h1], ?_⟩
    unfold utf8DecodeOne
    rw [if_pos h1, hofn]
  · by_cases h2 : c.toNat < 2048
    · refine ⟨192 + c.toNat / 64, (128 + c.toNat % 64) :: bs,
        by simp [utf8EncodeChar, h1, h2], ?_⟩
      unfold utf8DecodeOne
      rw [if_neg (by omega), if_neg (by omega), if_pos (by omega)]
      dsimp only
      rw [if_pos (show isCont (128 + c.toNat % 64) by unfold isCont; omega)]
      rw [if_pos (by omega)]
      rw [show (192 + c.toNat / 64 - 192) * 64 + (128 + c.toNat % 64 - 128)
        = c.toNat from by omega, hofn]
    · by_cases h3 : c.toNat < 65536
      · refine ⟨224 + c.toNat / 4096,
          (128 + c.toNat / 64 % 64) :: (128 + c.toNat % 64) :: bs,
          by simp [utf8EncodeChar, h1, h2, h3], ?_⟩
        unfold utf8DecodeOne
        rw [if_neg (by omega), if_neg (by omega), if_neg (by omega),
          if_pos (by omega)]
        dsimp only
        rw [if_pos (show isCont (128 + c.toNat / 64 % 64) ∧
          isCont (128 + c.toNat % 64) by unfold isCont; omega)]
        rw [if_pos (show 2048 ≤ (224 + c.toNat / 4096 - 224) * 4096 +
            (128 + c.toNat / 64 % 64 - 128) * 64 + (128 + c.toNat % 64 - 128) ∧
            ((224 + c.toNat / 4096 - 224) * 4096 +
            (128 + c.toNat / 64 % 64 - 128) * 64 + (128 + c.toNat % 64 - 128)
            < 55296 ∨ 57343 < (224 + c.toNat / 4096 - 224) * 4096 +
            (128 + c.toNat / 64 % 64 - 128) * 64 + (128 + c.toNat % 64 - 128))
          from by omega)]
        rw [show (224 + c.toNat / 4096 - 224) * 4096 +
          (128 + c.toNat / 64 % 64 - 128) * 64 + (128 + c.toNat % 64 - 128)
          = c.toNat from by omega, hofn]
      · refine ⟨240 + c.toNat / 262144,
          (128 + c.toNat / 4096 % 64) :: (128 + c.toNat / 64 % 64) ::
            (128 + c.toNat % 64) :: bs,
          by simp [utf8EncodeChar, h1, h2, h3], ?_⟩
        unfold utf8DecodeOne
        rw [if_neg (by omega), if_neg (by omega), if_neg (by omega),
          if_neg (by omega), if_pos (by omega)]
        dsimp only
        rw [if_pos (show isCont (128 + c.toNat / 4096 % 64) ∧
          isCont (128 + c.toNat / 64 % 64) ∧ isCont (128 + c.toNat % 64)
          by unfold isCont; omega)]
        rw [if_pos (show 65536 ≤ (240 + c.toNat / 262144 - 240) * 262144 +
            (128 + c.toNat / 4096 % 64 - 128) * 4096 +
            (128 + c.toNat / 64 % 64 - 128) * 64 + (128 + c.toNat % 64 - 128) ∧
            (240 + c.toNat / 262144 - 240) * 262144 +
            (128 + c.toNat / 4096 % 64 - 128) * 4096 +
            (128 + c.toNat / 64 % 64 - 128) * 64 + (128 + c.toNat % 64 - 128)
            < 1114112 from by omega)]
        rw [show (240 + c.toNat / 262144 - 240) * 262144 +
          (128 + c.toNat / 4096 % 64 - 128) * 4096 +
          (128 + c.toNat / 64 % 64 - 128) * 64 + (128 + c.toNat % 64 - 128)
          = c.toNat from by omega, hofn]

/-- UTF-8 round-trip on whole strings. -/
theorem utf8Decode_encode (s : List Char) :
    utf8Decode (utf8Encode s) = some s := by
  induction s with
  | nil => simp [utf8Encode]; rw [utf8Decode]
  | cons c cs ih =>
      obtain ⟨b0, tail, heq, hdec⟩ := utf8DecodeOne_encodeChar c (utf8Encode cs)
      simp only [utf8Encode, List.flatMap_cons] at *
      rw [heq, utf8Decode, hdec]
      dsimp only
      rw [ih]
      rfl

/-- Every byte produced by UTF-8 encoding is a byte. -/
theorem utf8Encode_isBytes (s : List Char) : ∀ b ∈ utf8Encode s, b < 256 := by
  induction s with
  | nil => intro b hb; simp [utf8Encode] at hb
  | cons c cs ih =>
      intro b hb
      simp only [utf8Encode, List.flatMap_cons, List.mem_append] at hb
      rcases hb with hb | hb
      · have hv := Char.toNat_valid c
        unfold utf8EncodeChar at hb
        by_cases h1 : c.toNat < 128
        · simp [h1] at hb; omega
        · by_cases h2 : c.toNat < 2048
          · simp [h1, h2] at hb; omega
          · by_cases h3 : c.toNat < 65536
            · simp [h1, h2, h3] at hb; omega
            · simp [h1, h2, h3] at hb; omega
      · exact ih b hb


/-! AES-256 (FIPS 197), as implemented by the `aes` crate underlying
`Aes256Gcm`.  Bytes are `Nat`s; `u8` wrapping is an explicit `% 256`. -/

/-- Multiplication by `x` in GF(2^8) modulo the AES polynomial `0x11B`,
on a `u8`. -/
def xtime (b : Nat) : Nat :=
  if b < 128 then b * 2 else ((b * 2) % 256) ^^^ 27

/-- Russian-peasant GF(2^8) product, 8 iterations over the bits of a
`u8`. -/
def gmulAux : Nat → Nat → Nat → Nat → Nat
  | 0, _, _, acc => acc
  | fuel + 1, a, b, acc =>
      gmulAux fuel (xtime a) (b / 2) (if b % 2 = 1 then acc ^^^ a else acc)

/-- GF(2^8) product. -/
def gmul (a b : Nat) : Nat := gmulAux 8 a b 0

/-- GF(2^8) multiplicative inverse as `b ^ 254` (maps 0 to 0), the
field-theoretic definition of the AES S-box core. -/
def ginv (b : Nat) : Nat := (List.range 253).foldl (fun acc _ => gmul acc b) b

/-- Left-rotation of a `u8` by `n` bits. -/
def rotl8 (x n : Nat) : Nat := ((x * 2 ^ n) % 256) ||| (x / 2 ^ (8 - n))

/-- The AES S-box: multiplicative inverse followed by the affine
transform with constant `0x63`. -/
def sbox (b : Nat) : Nat :=
  let i := ginv b
  ((((i ^^^ rotl8 i 1) ^^^ rotl8 i 2) ^^^ rotl8 i 3) ^^^ rotl8 i 4) ^^^ 99

/-- Round constant byte: `x ^ (j - 1)` in GF(2^8). -/
def rconByte (j : Nat) : Nat := (List.range (j - 1)).foldl (fun a _ => xtime a) 1

/-- Rotate a 4-byte word left by one byte. -/
def rotWord (w : List Nat) : List Nat := w.drop 1 ++ w.take 1

/-- Apply the S-box to each byte of a word. -/
def subWord (w : List Nat) : List Nat := w.map sbox

/-- AES-256 key-schedule word `w[i]` (FIPS 197 §5.2, Nk = 8). -/
def keyWord (key : List Nat) : Nat → List Nat
  | i =>
    if h : i < 8 then
      [key.getD (4 * i) 0, key.getD (4 * i + 1) 0,
       key.getD (4 * i + 2) 0, key.getD (4 * i + 3) 0]
    else
      let prev := keyWord key (i - 1)
      let old := keyWord key (i - 8)
      let t :=
        if i % 8 = 0 then
          List.zipWith (· ^^^ ·) (subWord (rotWord prev)) [rconByte (i / 8), 0, 0, 0]
        else if i % 8 = 4 then subWord prev
        else prev
      List.zipWith (· ^^^ ·) old t
termination_by i => i
decreasing_by all_goals omega

/-- Round key `r` (16 bytes) from the key schedule. -/
def roundKey (key : List Nat) (r : Nat) : List Nat :=
  keyWord key (4 * r) ++ keyWord key (4 * r + 1) ++
  keyWord key (4 * r + 2) ++ keyWord key (4 * r + 3)

/-- SubBytes. -/
def subBytes (s : List Nat) : List Nat := s.map sbox

/-- ShiftRows on the column-major flat state (`s[r + 4c]` is row `r`,
column `c`). -/
def shiftRows (s : List Nat) : List Nat :=
  (List.range 16).map (fun i => s.getD (i % 4 + 4 * ((i / 4 + i % 4) % 4)) 0)

/-- MixColumns. -/
def mixColumns (s : List Nat) : List Nat :=
  (List.range 16).map (fun i =>
    let a := fun r => s.getD (4 * (i / 4) + r % 4) 0
    (gmul 2 (a (i % 4)) ^^^ gmul 3 (a (i % 4 + 1))) ^^^
      (a (i % 4 + 2) ^^^ a (i % 4 + 3)))

/-- AddRoundKey. -/
def addRoundKey (s k : List Nat) : List Nat := List.zipWith (· ^^^ ·) s k

/-- AES-256 block encryption: 14 rounds. -/
def aes256EncryptBlock (key block : List Nat) : List Nat :=
  let s0 := addRoundKey block (roundKey key 0)
  let sMain := (List.range 13).foldl (fun s r =>
    addRoundKey (mixColumns (shiftRows (subBytes s))) (roundKey key (r + 1))) s0
  addRoundKey (shiftRows (subBytes sMain)) (roundKey key 14)

-- sanity: S-box spot checks
-- FIPS 197 / NIST vector: AES-256, zero key, zero block

/-! GCM mode (NIST SP 800-38D) with a 96-bit IV and no AAD, the
configuration `aes_gcm::Aes256Gcm` uses for these calls. -/

/-- Big-endian bytes of a 128-bit block value. -/
def toBlockBE (n : Nat) : List Nat :=
  (List.range 16).map (fun i => n / 256 ^ (15 - i) % 256)

/-- 128-bit block value of 16 big-endian bytes. -/
def fromBlockBE (bs : List Nat) : Nat := bs.foldl (fun acc b => acc * 256 + b) 0

/-- Big-endian 32-bit counter bytes (`inc32` arithmetic is mod `2^32`). -/
def be32 (n : Nat) : List Nat :=
  (List.range 4).map (fun i => n % 2 ^ 32 / 256 ^ (3 - i) % 256)

/-- Big-endian 64-bit length field. -/
def be64 (n : Nat) : List Nat :=
  (List.range 8).map (fun i => n % 2 ^ 64 / 256 ^ (7 - i) % 256)

/-- The GHASH reduction constant `R = 0xE1 << 120`. -/
def gfR : Nat := 225 * 2 ^ 120

/-- Product in GF(2^128) per SP 800-38D §6.3 (bit 0 is the MSB). -/
def gfMul (x y : Nat) : Nat :=
  ((List.range 128).foldl (fun zv i =>
    (if Nat.testBit x (127 - i) then zv.1 ^^^ zv.2 else zv.1,
     if zv.2 % 2 = 1 then (zv.2 / 2) ^^^ gfR else zv.2 / 2)) (0, y)).1

/-- GHASH over a sequence of 128-bit blocks. -/
def ghashBlocks (h : Nat) (blocks : List (List Nat)) : Nat :=
  blocks.foldl (fun y b => gfMul (y ^^^ fromBlockBE b) h) 0

/-- Zero-pad a byte string up to a multiple of 16. -/
def padTo16 (l : List Nat) : List Nat :=
  l ++ List.replicate ((16 - l.length % 16) % 16) 0

/-- Split a byte string into 16-byte chunks. -/
def chunk16 (l : List Nat) : List (List Nat) :=
  if l = [] then [] else l.take 16 :: chunk16 (l.drop 16)
termination_by l.length
decreasing_by
  rename_i h
  have : l.length ≠ 0 := fun h0 => h (List.eq_nil_of_length_eq_zero h0)
  simp [List.length_drop]
  omega

/-- Counter block: 96-bit IV followed by a 32-bit big-endian counter. -/
def gcmCounterBlock (nonce : List Nat) (ctr : Nat) : List Nat :=
  nonce ++ be32 ctr

/-- CTR keystream for the payload (counters start at 2; counter 1 masks
the tag). -/
def gcmKeystream (key nonce : List Nat) (n : Nat) : List Nat :=
  ((List.range ((n + 15) / 16)).flatMap (fun i =>
    aes256EncryptBlock key (gcmCounterBlock nonce (i + 2)))).take n

/-- The 16-byte GCM authentication tag over a ciphertext (no AAD). -/
def gcmTag (key nonce ct : List Nat) : List Nat :=
  let h := fromBlockBE (aes256EncryptBlock key (List.replicate 16 0))
  let s := ghashBlocks h (chunk16 (padTo16 ct) ++ [be64 0 ++ be64 (8 * ct.length)])
  toBlockBE (s ^^^ fromBlockBE (aes256EncryptBlock key (gcmCounterBlock nonce 1)))

/-- `Aes256Gcm::encrypt` with an empty-AAD payload: ciphertext with the
tag appended. -/
def gcmEncrypt (key nonce pt : List Nat) : List Nat :=
  let ct := List.zipWith (· ^^^ ·) pt (gcmKeystream key nonce pt.length)
  ct ++ gcmTag key nonce ct

/-- `Aes256Gcm::decrypt`: split off the 16-byte tag, verify it, and
decrypt; `none` is the opaque `aead::Error`. -/
def gcmDecrypt (key nonce data : List Nat) : Option (List Nat) :=
  if data.length < 16 then none
  else
    let ct := data.take (data.length - 16)
    let tag := data.drop (data.length - 16)
    if gcmTag key nonce ct = tag then
      some (List.zipWith (· ^^^ ·) ct (gcmKeystream key nonce ct.length))
    else none

-- NIST AES-256-GCM vectors (zero key, zero IV):
-- expect tag 530f8afbc74536b9a963b4f1c4cb738b
-- expect ct cea7403d4d606b6e074ec5d3baf39d18 tag d0d1c8a799996bf0265b98b5d48ab919

/-! Byte-range and length lemmas for the cipher pipeline. -/

theorem xtime_lt (b : Nat) : xtime b < 256 := by
  unfold xtime
  split
  · omega
  · exact Nat.xor_lt_two_pow (n := 8) (Nat.mod_lt _ (by norm_num)) (by norm_num)

theorem gmulAux_lt (fuel : Nat) : ∀ a b acc : Nat, a < 256 → acc < 256 →
    gmulAux fuel a b acc < 256 := by
  induction fuel with
  | zero => intro a b acc _ hacc; exact hacc
  | succ n ih =>
      intro a b acc ha hacc
      unfold gmulAux
      exact ih _ _ _ (xtime_lt a) (by
        split
        · exact Nat.xor_lt_two_pow (n := 8) hacc ha
        · exact hacc)

theorem gmul_lt (a b : Nat) (h : a < 256) : gmul a b < 256 :=
  gmulAux_lt 8 a b 0 h (by norm_num)

theorem foldl_gmul_lt (l : List Unit) (b : Nat) : ∀ acc, acc < 256 →
    List.foldl (fun acc _ => gmul acc b) acc l < 256 := by
  induction l with
  | nil => intro acc h; exact h
  | cons _ t ih => intro acc h; exact ih _ (gmul_lt _ _ h)

theorem ginv_lt (b : Nat) (h : b < 256) : ginv b < 256 := by
  unfold ginv
  have : ∀ (l : List Nat) (acc : Nat), acc < 256 →
      List.foldl (fun acc _ => gmul acc b) acc l < 256 := by
    intro l
    induction l with
    | nil => intro acc h; exact h
    | cons _ t ih => intro acc hacc; exact ih _ (gmul_lt _ _ hacc)
  exact this _ b h

theorem rotl8_lt (x n : Nat) (h : x < 256) : rotl8 x n < 256 := by
  unfold rotl8
  have h1 : x * 2 ^ n % 256 < 256 := Nat.mod_lt _ (by norm_num)
  have h2 : x / 2 ^ (8 - n) < 256 := lt_of_le_of_lt (Nat.div_le_self _ _) h
  exact Nat.or_lt_two_pow (n := 8) h1 h2

theorem sbox_lt (b : Nat) (h : b < 256) : sbox b < 256 := by
  unfold sbox
  have hi := ginv_lt b h
  refine Nat.xor_lt_two_pow (n := 8) ?_ (by norm_num)
  refine Nat.xor_lt_two_pow (n := 8) ?_ (rotl8_lt _ _ hi)
  refine Nat.xor_lt_two_pow (n := 8) ?_ (rotl8_lt _ _ hi)
  refine Nat.xor_lt_two_pow (n := 8) ?_ (rotl8_lt _ _ hi)
  exact Nat.xor_lt_two_pow (n := 8) hi (rotl8_lt _ _ hi)

theorem getD_lt {l : List Nat} (h : ∀ x ∈ l, x < 256) : ∀ i, l.getD i 0 < 256 := by
  induction l with
  | nil => intro i; simp [List.getD]
  | cons a t ih =>
      intro i
      cases i with
      | zero => exact h a (by simp)
      | succ j =>
          simp only [List.getD_cons_succ]
          exact ih (fun x hx => h x (by simp [hx])) j

theorem zipWith_xor_lt {l1 l2 : List Nat} (h1 : ∀ x ∈ l1, x < 256)
    (h2 : ∀ x ∈ l2, x < 256) :
    ∀ x ∈ List.zipWith (· ^^^ ·) l1 l2, x < 256 := by
  induction l1 generalizing l2 with
  | nil => intro x hx; simp at hx
  | cons a t ih =>
      cases l2 with
      | nil => intro x hx; simp at hx
      | cons b t2 =>
          intro x hx
          simp only [List.zipWith_cons_cons, List.mem_cons] at hx
          rcases hx with rfl | hx
          · exact Nat.xor_lt_two_pow (n := 8) (h1 a (by simp)) (h2 b (by simp))
          · exact ih (fun y hy => h1 y (by simp [hy]))
              (fun y hy => h2 y (by simp [hy])) x hx

theorem rconByte_lt (j : Nat) : rconByte j < 256 := by
  unfold rconByte
  have : ∀ (l : List Nat) (acc : Nat), acc < 256 →
      List.foldl (fun a _ => xtime a) acc l < 256 := by
    intro l
    induction l with
    | nil => intro acc h; exact h
    | cons _ t ih => intro acc _; exact ih _ (xtime_lt _)
  exact this _ 1 (by norm_num)

theorem rotWord_length {w : List Nat} (h : w.length = 4) :
    (rotWord w).length = 4 := by
  unfold rotWord
  simp [h]

theorem subWord_length (w : List Nat) : (subWord w).length = w.length := by
  unfold subWord; simp

theorem rotWord_lt {w : List Nat} (h : ∀ x ∈ w, x < 256) :
    ∀ x ∈ rotWord w, x < 256 := by
  intro x hx
  unfold rotWord at hx
  rcases List.mem_append.1 hx with hx | hx
  · exact h x (List.drop_subset _ _ hx)
  · exact h x (List.take_subset _ _ hx)

theorem subWord_lt {w : List Nat} (h : ∀ x ∈ w, x < 256) :
    ∀ x ∈ subWord w, x < 256 := by
  intro x hx
  unfold subWord at hx
  obtain ⟨y, hy, rfl⟩ := List.mem_map.1 hx
  exact sbox_lt y (h y hy)

theorem keyWord_length (key : List Nat) : ∀ i, (keyWord key i).length = 4 := by
  intro i
  induction i using Nat.strong_induction_on with
  | _ i ih =>
      rw [keyWord]
      split
      · simp
      · rename_i h
        have hprev : (keyWord key (i - 1)).length = 4 := ih _ (by omega)
        have hold : (keyWord key (i - 8)).length = 4 := ih _ (by omega)
        simp only [List.length_zipWith, hold]
        split
        · simp [List.length_zipWith, subWord_length, rotWord_length hprev]
        · split
          · simp [subWord_length, hprev]
          · simp [hprev]

theorem keyWord_lt (key : List Nat) (hk : ∀ x ∈ key, x < 256) :
    ∀ i, ∀ x ∈ keyWord key i, x < 256 := by
  intro i
  induction i using Nat.strong_induction_on with
  | _ i ih =>
      rw [keyWord]
      split
      · intro x hx
        simp only [List.mem_cons, List.not_mem_nil, or_false] at hx
        rcases hx with rfl | rfl | rfl | rfl <;> exact getD_lt hk _
      · rename_i h
        have hprev := ih (i - 1) (by omega)
        have hold := ih (i - 8) (by omega)
        refine zipWith_xor_lt hold ?_
        split
        · refine zipWith_xor_lt (subWord_lt (rotWord_lt hprev)) ?_
          intro x hx
          simp only [List.mem_cons, List.not_mem_nil, or_false] at hx
          rcases hx with rfl | rfl | rfl | rfl
          · exact rconByte_lt _
          all_goals norm_num
        · split
          · exact subWord_lt hprev
          · exact hprev

theorem roundKey_length (key : List Nat) (r : Nat) :
    (roundKey key r).length = 16 := by
  unfold roundKey
  simp [keyWord_length]

theorem roundKey_lt (key : List Nat) (hk : ∀ x ∈ key, x < 256) (r : Nat) :
    ∀ x ∈ roundKey key r, x < 256 := by
  intro x hx
  unfold roundKey at hx
  simp only [List.mem_append] at hx
  rcases hx with ((hx | hx) | hx) | hx <;> exact keyWord_lt key hk _ x hx

theorem subBytes_length (s : List Nat) : (subBytes s).length = s.length := by
  unfold subBytes; simp

theorem subBytes_lt {s : List Nat} (h : ∀ x ∈ s, x < 256) :
    ∀ x ∈ subBytes s, x < 256 := by
  intro x hx
  unfold subBytes at hx
  obtain ⟨y, hy, rfl⟩ := List.mem_map.1 hx
  exact sbox_lt y (h y hy)

theorem shiftRows_length (s : List Nat) : (shiftRows s).length = 16 := by
  unfold shiftRows; simp

theorem shiftRows_lt {s : List Nat} (h : ∀ x ∈ s, x < 256) :
    ∀ x ∈ shiftRows s, x < 256 := by
  intro x hx
  unfold shiftRows at hx
  obtain ⟨i, _, rfl⟩ := List.mem_map.1 hx
  exact getD_lt h _

theorem mixColumns_length (s : List Nat) : (mixColumns s).length = 16 := by
  unfold mixColumns; simp

theorem mixColumns_lt {s : List Nat} (h : ∀ x ∈ s, x < 256) :
    ∀ x ∈ mixColumns s, x < 256 := by
  intro x hx
  unfold mixColumns at hx
  obtain ⟨i, _, rfl⟩ := List.mem_map.1 hx
  refine Nat.xor_lt_two_pow (n := 8) ?_ ?_
  · exact Nat.xor_lt_two_pow (n := 8) (gmul_lt _ _ (by norm_num))
      (gmul_lt _ _ (by norm_num))
  · exact Nat.xor_lt_two_pow (n := 8) (getD_lt h _) (getD_lt h _)

theorem addRoundKey_length (s k : List Nat) :
    (addRoundKey s k).length = min s.length k.length := by
  unfold addRoundKey; simp

theorem addRoundKey_lt {s k : List Nat} (hs : ∀ x ∈ s, x < 256)
    (hk : ∀ x ∈ k, x < 256) : ∀ x ∈ addRoundKey s k, x < 256 :=
  zipWith_xor_lt hs hk

theorem aes256EncryptBlock_length (key block : List Nat)
    (hb : block.length = 16) : (aes256EncryptBlock key block).length = 16 := by
  unfold aes256EncryptBlock
  have h0 : (addRoundKey block (roundKey key 0)).length = 16 := by
    simp [addRoundKey_length, roundKey_length, hb]
  have hmain : ∀ (l : List Nat) (s : List Nat), s.length = 16 →
      (l.foldl (fun s r =>
        addRoundKey (mixColumns (shiftRows (subBytes s))) (roundKey key (r + 1)))
        s).length = 16 := by
    intro l
    induction l with
    | nil => intro s h; exact h
    | cons a t ih =>
        intro s h
        exact ih _ (by simp [addRoundKey_length, mixColumns_length, roundKey_length])
  have h13 := hmain (List.range 13) _ h0
  simp only [addRoundKey_length, shiftRows_length, roundKey_length]
  omega

theorem aes256EncryptBlock_lt (key block : List Nat)
    (hk : ∀ x ∈ key, x < 256) (hb : ∀ x ∈ block, x < 256) :
    ∀ x ∈ aes256EncryptBlock key block, x < 256 := by
  unfold aes256EncryptBlock
  have h0 : ∀ x ∈ addRoundKey block (roundKey key 0), x < 256 :=
    addRoundKey_lt hb (roundKey_lt key hk 0)
  have hmain : ∀ (l : List Nat) (s : List Nat), (∀ x ∈ s, x < 256) →
      ∀ x ∈ l.foldl (fun s r =>
        addRoundKey (mixColumns (shiftRows (subBytes s))) (roundKey key (r + 1)))
        s, x < 256 := by
    intro l
    induction l with
    | nil => intro s h; exact h
    | cons a t ih =>
        intro s h
        exact ih _ (addRoundKey_lt (mixColumns_lt (shiftRows_lt (subBytes_lt h)))
          (roundKey_lt key hk _))
  exact addRoundKey_lt (shiftRows_lt (subBytes_lt (hmain (List.range 13) _ h0)))
    (roundKey_lt key hk _)

theorem toBlockBE_length (n : Nat) : (toBlockBE n).length = 16 := by
  unfold toBlockBE; simp

theorem toBlockBE_lt (n : Nat) : ∀ x ∈ toBlockBE n, x < 256 := by
  intro x hx
  unfold toBlockBE at hx
  obtain ⟨i, _, rfl⟩ := List.mem_map.1 hx
  exact Nat.mod_lt _ (by norm_num)

theorem be32_length (n : Nat) : (be32 n).length = 4 := by unfold be32; simp

theorem be32_lt (n : Nat) : ∀ x ∈ be32 n, x < 256 := by
  intro x hx
  unfold be32 at hx
  obtain ⟨i, _, rfl⟩ := List.mem_map.1 hx
  exact Nat.mod_lt _ (by norm_num)

theorem gcmCounterBlock_length {nonce : List Nat} (h : nonce.length = 12)
    (ctr : Nat) : (gcmCounterBlock nonce ctr).length = 16 := by
  unfold gcmCounterBlock
  simp [h, be32_length]

theorem gcmCounterBlock_lt {nonce : List Nat} (h : ∀ x ∈ nonce, x < 256)
    (ctr : Nat) : ∀ x ∈ gcmCounterBlock nonce ctr, x < 256 := by
  intro x hx
  unfold gcmCounterBlock at hx
  rcases List.mem_append.1 hx with hx | hx
  · exact h x hx
  · exact be32_lt ctr x hx

theorem gcmKeystream_length {nonce : List Nat} (key : List Nat)
    (hn : nonce.length = 12) (n : Nat) :
    (gcmKeystream key nonce n).length = n := by
  unfold gcmKeystream
  rw [List.length_take]
  have : ∀ m : Nat, ((List.range m).flatMap (fun i =>
      aes256EncryptBlock key (gcmCounterBlock nonce (i + 2)))).length = 16 * m := by
    intro m
    rw [List.length_flatMap]
    have : ∀ i ∈ List.range m,
        (aes256EncryptBlock key (gcmCounterBlock nonce (i + 2))).length = 16 :=
      fun i _ => aes256EncryptBlock_length _ _ (gcmCounterBlock_length hn _)
    simp only [Function.comp_def]
    rw [List.map_congr_left this]
    simp [Nat.mul_comm]
  rw [this]
  omega

theorem gcmKeystream_lt {key nonce : List Nat} (hk : ∀ x ∈ key, x < 256)
    (hn : ∀ x ∈ nonce, x < 256) (n : Nat) :
    ∀ x ∈ gcmKeystream key nonce n, x < 256 := by
  intro x hx
  unfold gcmKeystream at hx
  have hx2 := List.take_subset _ _ hx
  obtain ⟨i, _, hmem⟩ := List.mem_flatMap.1 hx2
  exact aes256EncryptBlock_lt _ _ hk (gcmCounterBlock_lt hn _) x hmem

theorem zipWith_xor_cancel : ∀ (p ks : List Nat), p.length ≤ ks.length →
    List.zipWith (· ^^^ ·) (List.zipWith (· ^^^ ·) p ks) ks = p := by
  intro p
  induction p with
  | nil => intro ks _; simp
  | cons a t ih =>
      intro ks h
      cases ks with
      | nil => simp at h
      | cons b t2 =>
          simp only [List.zipWith_cons_cons, Nat.xor_cancel_right, List.cons.injEq]
          exact ⟨trivial, ih t2 (by simpa using h)⟩

theorem gcm_roundtrip (key nonce pt : List Nat) (hn : nonce.length = 12) :
    gcmDecrypt key nonce (gcmEncrypt key nonce pt) = some pt := by
  unfold gcmEncrypt gcmDecrypt
  have hks : (gcmKeystream key nonce pt.length).length = pt.length :=
    gcmKeystream_length key hn _
  have hct : (List.zipWith (· ^^^ ·) pt (gcmKeystream key nonce pt.length)).length
      = pt.length := by simp [hks]
  have htag : (gcmTag key nonce
      (List.zipWith (· ^^^ ·) pt (gcmKeystream key nonce pt.length))).length = 16 := by
    unfold gcmTag; exact toBlockBE_length _
  rw [List.length_append, hct, htag]
  rw [if_neg (by omega)]
  have e1 : pt.length + 16 - 16 = pt.length := by omega
  rw [e1]
  rw [List.take_left' hct, List.drop_left' hct]
  rw [if_pos rfl, hct, zipWith_xor_cancel _ _ (le_of_eq hks.symm)]

theorem gcmEncrypt_lt {key nonce pt : List Nat} (hk : ∀ x ∈ key, x < 256)
    (hn : ∀ x ∈ nonce, x < 256) (hp : ∀ x ∈ pt, x < 256) :
    ∀ x ∈ gcmEncrypt key nonce pt, x < 256 := by
  intro x hx
  unfold gcmEncrypt at hx
  rcases List.mem_append.1 hx with hx | hx
  · exact zipWith_xor_lt hp (gcmKeystream_lt hk hn _) x hx
  · unfold gcmTag at hx
    exact toBlockBE_lt _ x hx

inductive DecryptError where
  | decodeFailed : DecryptError
  | invalidFormat : DecryptError
  | authFailed : DecryptError
  | invalidUtf8 : DecryptError
deriving DecidableEq

def DecryptError.isFormatError : DecryptError → Bool
  | .decodeFailed => true
  | .invalidFormat => true
  | .authFailed => false
  | .invalidUtf8 => false

def encrypt_password (key nonce : List Nat) (password : String) : String :=
  String.mk (base64Encode (nonce ++ gcmEncrypt key nonce (utf8Encode password.data)))

def decrypt_password (key : List Nat) (encrypted : String) :
    Except DecryptError String :=
  match base64Decode encrypted.data with
  | none => .error .decodeFailed
  | some combined =>
    if combined.length < 12 then .error .invalidFormat
    else
      match gcmDecrypt key (combined.take 12) (combined.drop 12) with
      | none => .error .authFailed
      | some plaintext =>
        match utf8Decode plaintext with
        | none => .error .invalidUtf8
        | some cs => .ok (String.mk cs)

theorem decrypt_encrypt_roundtrip (key nonce : List Nat) (p : String)
    (hkb : ∀ x ∈ key, x < 256)
    (hn : nonce.length = 12) (hnb : ∀ x ∈ nonce, x < 256) :
    decrypt_password key (encrypt_password key nonce p) = .ok p := by
  unfold encrypt_password decrypt_password
  have hbytes : ∀ b ∈ nonce ++ gcmEncrypt key nonce (utf8Encode p.data), b < 256 := by
    intro b hb
    rcases List.mem_append.1 hb with hb | hb
    · exact hnb b hb
    · exact gcmEncrypt_lt hkb hnb (utf8Encode_isBytes p.data) b hb
  have hdata : (String.mk (base64Encode (nonce ++ gcmEncrypt key nonce
      (utf8Encode p.data)))).data = base64Encode (nonce ++ gcmEncrypt key nonce
      (utf8Encode p.data)) := rfl
  rw [hdata, base64_roundtrip _ hbytes]
  dsimp only
  rw [if_neg (by simp [List.length_append, hn])]
  rw [List.take_left' hn, List.drop_left' hn]
  rw [gcm_roundtrip key nonce _ hn]
  dsimp only
  rw [utf8Decode_encode]

/-- C3: `decrypt_password` fails with a format-class error exactly when
the input is not valid base64 or the decoded payload has fewer than 12
bytes; when the payload has at least 12 bytes but GCM
authentication fails, it fails with the authentication error, which is
not a format-class error. -/
theorem C3_decrypt_password_error_classes (key : List Nat) (s : String) :
    ((∃ e, decrypt_password key s = .error e ∧ e.isFormatError = true) ↔
      (base64Decode s.data = none ∨
        ∃ bs, base64Decode s.data = some bs ∧ bs.length < 12)) ∧
    (∀ bs, base64Decode s.data = some bs → 12 ≤ bs.length →
      gcmDecrypt key (bs.take 12) (bs.drop 12) = none →
      decrypt_password key s = .error .authFailed ∧
        DecryptError.isFormatError .authFailed = false) := by
  unfold decrypt_password
  cases hd : base64Decode s.data with
  | none =>
      refine ⟨⟨fun _ => Or.inl rfl, fun _ => ⟨.decodeFailed, rfl, rfl⟩⟩, ?_⟩
      intro bs hbs
      cases hbs
  | some bs =>
      dsimp only
      by_cases hlen : bs.length < 12
      · rw [if_pos hlen]
        refine ⟨⟨fun _ => Or.inr ⟨bs, rfl, hlen⟩,
          fun _ => ⟨.invalidFormat, rfl, rfl⟩⟩, ?_⟩
        intro bs2 hbs2 hge _
        cases hbs2
        omega
      · rw [if_neg hlen]
        cases hg : gcmDecrypt key (bs.take 12) (bs.drop 12) with
        | none =>
            refine ⟨⟨?_, ?_⟩, ?_⟩
            · rintro ⟨e, he, hf⟩
              cases he
              cases hf
            · rintro (h | ⟨bs2, hbs2, hlt⟩)
              · cases h
              · cases hbs2; omega
            · intro bs2 hbs2 _ _
              cases hbs2
              exact ⟨rfl, rfl⟩
        | some pt =>
            refine ⟨⟨?_, ?_⟩, ?_⟩
            · rintro ⟨e, he, hf⟩
              dsimp only at he
              cases hu : utf8Decode pt with
              | none => rw [hu] at he; cases he; cases hf
              | some cs => rw [hu] at he; cases he
            · rintro (h | ⟨bs2, hbs2, hlt⟩)
              · cases h
              · cases hbs2; omega
            · intro bs2 hbs2 _ hgd
              cases hbs2
              rw [hg] at hgd
              cases hgd

/-! ## Preferences manager composition (`auth_preferences.rs`) -/

/-- `AuthPreferencesManager::save_preferences` (`auth_preferences.rs`
lines 69-91): the record that ends up stored (in memory and on disk).
The encryption key and the random nonce drawn inside
`encrypt_password` are explicit inputs. -/
def save_preferences (key nonce : List Nat) (preferences : AuthPreferences)
    (password : Option String) : AuthPreferences :=
  match password with
  | some pwd =>
      if preferences.remember_password then
        { preferences with
            encrypted_password := some (encrypt_password key nonce pwd) }
      else { preferences with encrypted_password := none }
  | none => { preferences with encrypted_password := none }

/-- `AuthPreferencesManager::get_remembered_credentials`
(`auth_preferences.rs` lines 101-112): the `?` on `decrypt_password`
propagates a decryption error out of the whole call. -/
def get_remembered_credentials (key : List Nat) (prefs : AuthPreferences) :
    Except DecryptError (Option String × Option String) :=
  match prefs.encrypted_password with
  | some encrypted =>
      match decrypt_password key encrypted with
      | .ok pwd => .ok (prefs.remembered_email, some pwd)
      | .error e => .error e
  | none => .ok (prefs.remembered_email, none)

/-- `allWritesHeld depth evs`: every `fsWrite` in `evs` happens while the
lock depth (starting from `depth`) is positive. -/
def allWritesHeld : Nat → List StoreEv → Bool
  | _, [] => true
  | d, .lockAcquire :: evs => allWritesHeld (d + 1) evs
  | d, .lockRelease :: evs => allWritesHeld (d - 1) evs
  | d, .fsWrite :: evs => decide (0 < d) && allWritesHeld d evs
  | d, _ :: evs => allWritesHeld d evs

/-- `releaseBeforeWrite evs`: some `lockRelease` occurs before the first
`fsWrite` (vacuously true when there is no write). -/
def releaseBeforeWrite : List StoreEv → Bool
  | [] => true
  | .fsWrite :: _ => false
  | .lockRelease :: _ => true
  | _ :: evs => releaseBeforeWrite evs

/-! ## Claim theorems -/

/-- C1: after `save_preferences`, the stored record's
`encrypted_password` is `none` whenever `remember_password` is false or
no password was supplied — regardless of any blob in the passed-in
record — and a blob is stored only when a password was supplied and
`remember_password` is true. -/
theorem C1_save_preferences_policy (key nonce : List Nat)
    (preferences : AuthPreferences) (password : Option String) :
    ((preferences.remember_password = false ∨ password = none) →
      (save_preferences key nonce preferences password).encrypted_password
        = none) ∧
    (∀ blob,
      (save_preferences key nonce preferences password).encrypted_password
          = some blob →
      ∃ pwd, password = some pwd ∧ preferences.remember_password = true ∧
        blob = encrypt_password key nonce pwd) := by
  cases password with
  | none => simp [save_preferences]
  | some pwd =>
      by_cases h : preferences.remember_password
      · constructor
        · rintro (hf | hn)
          · rw [h] at hf; cases hf
          · cases hn
        · intro blob hb
          simp [save_preferences, h] at hb
          exact ⟨pwd, rfl, by simp [h], hb.symm⟩
      · constructor
        · intro _
          simp [save_preferences, h]
        · intro blob hb
          simp [save_preferences, h] at hb

/-- Witness for C1 at a concrete call: a record that arrives carrying a
stale blob, with `remember_password = false` and a password supplied,
is stored without a blob. -/
theorem C1_witness :
    (save_preferences [] []
      { remember_me := true, remember_password := false
        sign_in_automatically := true, remembered_email := some "u@example.com"
        encrypted_password := some "stale" }
      (some "hunter2")).encrypted_password = none :=
  (C1_save_preferences_policy [] [] _ _).1 (Or.inl rfl)

/-- C2: decrypting the blob produced by `encrypt_password` with the same
32-byte key returns exactly the original password. -/
theorem C2_decrypt_encrypt_roundtrip (key nonce : List Nat) (p : String)
    (hklen : key.length = 32) (hkb : IsBytes key)
    (hnlen : nonce.length = 12) (hnb : IsBytes nonce) :
    decrypt_password key (encrypt_password key nonce p) = .ok p :=
  decrypt_encrypt_roundtrip key nonce p hkb hnlen hnb

/-- Witness for C2 at a concrete zero key, zero nonce and password. -/
theorem C2_witness :
    decrypt_password (List.replicate 32 0)
      (encrypt_password (List.replicate 32 0) (List.replicate 12 0) "pw")
      = .ok "pw" :=
  C2_decrypt_encrypt_roundtrip (List.replicate 32 0) (List.replicate 12 0)
    "pw" (by simp) (by decide) (by simp) (by decide)

/-- Witness for C3: an input that is not base64 produces a format-class
error. -/
theorem C3_witness :
    ∃ e, decrypt_password [] "!" = .error e ∧ e.isFormatError = true :=
  (C3_decrypt_password_error_classes [] "!").1.mpr (Or.inl (by decide))

/-- `setsAnyPermissions ops`: whether any permission-setting operation
occurs in `ops`. -/
def setsAnyPermissions (ops : List FsOp) : Bool :=
  ops.any (fun op => match op with
    | .setPermissions _ => true
    | _ => false)

/-- C4 is false as stated: `AuthManager::save_to_disk` writes the
session file without ever setting permissions — its success trace
(record present, file exists) contains no permission operation, in
particular no `setPermissions 0o600`. -/
theorem C4_counterexample :
    setsAnyPermissions (auth_save_to_disk_ops true true) = false := by
  decide

/-- C4 (amended): only `AuthPreferencesManager::save_to_disk` asserts
owner-only permissions, doing so after the write on every save; the
session file written by `AuthManager::save_to_disk` never has
permissions set, on any branch. -/
theorem C4_amended_permissions :
    authPrefs_save_to_disk_ops
      = [.createParentDir, .writeFile, .setPermissions 0o600] ∧
    (∀ present file_exists,
      setsAnyPermissions (auth_save_to_disk_ops present file_exists) = false) := by
  refine ⟨rfl, ?_⟩
  intro present file_exists
  cases present <;> cases file_exists <;> decide

/-- C5 is false as stated: with a remembered email present and an
undecryptable blob, `get_remembered_credentials` returns the bare
decryption error — the email is not returned. -/
theorem C5_counterexample :
    get_remembered_credentials (List.replicate 32 0)
      { remember_me := true, remember_password := true
        sign_in_automatically := true
        remembered_email := some "user@example.com"
        encrypted_password := some "!" }
      = .error .decodeFailed := by
  rfl

/-- C5 (amended): when decryption of a present blob fails, the whole
call fails with that error (returning no email); the email is returned
as-is only when the call succeeds. -/
theorem C5_amended_error_propagation (key : List Nat)
    (prefs : AuthPreferences) :
    (∀ enc e, prefs.encrypted_password = some enc →
      decrypt_password key enc = .error e →
      get_remembered_credentials key prefs = .error e) ∧
    (∀ em pw, get_remembered_credentials key prefs = .ok (em, pw) →
      em = prefs.remembered_email) := by
  constructor
  · intro enc e henc hdec
    unfold get_remembered_credentials
    rw [henc]
    dsimp only
    rw [hdec]
  · intro em pw hok
    unfold get_remembered_credentials at hok
    cases henc : prefs.encrypted_password with
    | none => rw [henc] at hok; cases hok; rfl
    | some enc =>
        rw [henc] at hok
        dsimp only at hok
        cases hdec : decrypt_password key enc with
        | ok pwd => rw [hdec] at hok; cases hok; rfl
        | error e => rw [hdec] at hok; cases hok

/-- Witness for C5 (amended) at a concrete state: the call fails
outright with the blob's decode error. -/
theorem C5_witness :
    get_remembered_credentials []
      { remember_me := false, remember_password := false
        sign_in_automatically := true, remembered_email := some "u@e"
        encrypted_password := some "%" }
      = .error .decodeFailed :=
  (C5_amended_error_propagation [] _).1 "%" .decodeFailed rfl rfl

/-- C6 is false as stated: in `save_preferences` the disk write
performed by `save_to_disk` happens while the (re-acquired) record lock
is held. -/
theorem C6_counterexample : anyWriteHeld 0 save_preferences_events = true := by
  decide

/-- C6 (amended): every mutating setter releases the lock taken for the
in-memory mutation before `save_to_disk` is called (a release precedes
the first write), but `save_to_disk` re-acquires the same lock and
performs the file write with it held, in all nine setters and on every
branch. -/
theorem C6_amended_lock_discipline :
    (releaseBeforeWrite save_preferences_events = true ∧
      allWritesHeld 0 save_preferences_events = true) ∧
    (releaseBeforeWrite clear_preferences_events = true ∧
      allWritesHeld 0 clear_preferences_events = true) ∧
    (∀ file_exists,
      releaseBeforeWrite (set_auth_events file_exists) = true ∧
      allWritesHeld 0 (set_auth_events file_exists) = true) ∧
    (∀ authenticated file_exists,
      releaseBeforeWrite (update_user_events authenticated file_exists) = true ∧
      allWritesHeld 0 (update_user_events authenticated file_exists) = true) ∧
    (∀ file_exists,
      releaseBeforeWrite (clear_auth_events file_exists) = true ∧
      allWritesHeld 0 (clear_auth_events file_exists) = true) ∧
    (releaseBeforeWrite update_notification_settings_events = true ∧
      allWritesHeld 0 update_notification_settings_events = true) ∧
    (releaseBeforeWrite update_startup_settings_events = true ∧
      allWritesHeld 0 update_startup_settings_events = true) ∧
    (releaseBeforeWrite update_file_settings_events = true ∧
      allWritesHeld 0 update_file_settings_events = true) ∧
    (releaseBeforeWrite reset_settings_events = true ∧
      allWritesHeld 0 reset_settings_events = true) := by
  refine ⟨by decide, by decide, ?_, ?_, ?_, by decide, by decide, by decide,
    by decide⟩
  · intro file_exists; cases file_exists <;> exact ⟨by decide, by decide⟩
  · intro authenticated file_exists
    cases authenticated <;> cases file_exists <;> exact ⟨by decide, by decide⟩
  · intro file_exists; cases file_exists <;> exact ⟨by decide, by decide⟩

/-- C7: reading the key file rejects any length other than exactly 32
bytes; with exactly 32 bytes it returns precisely those bytes, and a
second call against the resulting undisturbed file returns the
identical key. -/
theorem C7_get_or_create_encryption_key (data fresh : List Nat) :
    (data.length ≠ 32 →
      AuthPreferencesManager.get_or_create_encryption_key (some data) fresh
        = .error "Invalid encryption key size") ∧
    (data.length = 32 →
      AuthPreferencesManager.get_or_create_encryption_key (some data) fresh
          = .ok (data, some data) ∧
      ∀ k st,
        AuthPreferencesManager.get_or_create_encryption_key (some data) fresh
            = .ok (k, st) →
        AuthPreferencesManager.get_or_create_encryption_key st fresh
            = .ok (k, st)) := by
  constructor
  · intro h
    unfold AuthPreferencesManager.get_or_create_encryption_key
    dsimp only
    rw [if_pos h]
  · intro h
    constructor
    · unfold AuthPreferencesManager.get_or_create_encryption_key
      dsimp only
      rw [if_neg (by omega)]
    · intro k st hok
      unfold AuthPreferencesManager.get_or_create_encryption_key at hok ⊢
      dsimp only at hok
      rw [if_neg (by omega)] at hok
      cases hok
      dsimp only
      rw [if_neg (by omega)]

/-- Witness for C7: a 32-byte file returns its bytes; a 3-byte file is
rejected. -/
theorem C7_witness :
    AuthPreferencesManager.get_or_create_encryption_key
        (some (List.replicate 32 7)) []
      = .ok (List.replicate 32 7, some (List.replicate 32 7)) ∧
    AuthPreferencesManager.get_or_create_encryption_key (some [1, 2, 3]) []
      = .error "Invalid encryption key size" :=
  ⟨((C7_get_or_create_encryption_key (List.replicate 32 7) []).2 (by simp)).1,
    (C7_get_or_create_encryption_key [1, 2, 3] []).1 (by simp)⟩

/-- C8: for each store, construction against a missing file yields the
type-specific default, construction against an unparsable file also
yields the default, and `load_from_disk` on an unparsable file returns
an error while leaving the prior in-memory record untouched. -/
theorem C8_store_construction_tolerance :
    (∀ parse, AuthPreferencesManager.new parse none = AuthPreferences.default) ∧
    (∀ parse s e, parse s = .error e →
      AuthPreferencesManager.new parse (some s) = AuthPreferences.default) ∧
    (∀ parse s e mem, parse s = .error e →
      AuthPreferencesManager.load_from_disk parse (some s) mem =
        (.error ("Failed to parse auth preferences: " ++ e), mem)) ∧
    (∀ parse, SettingsManager.new parse none = default_settings) ∧
    (∀ parse s e, parse s = .error e →
      SettingsManager.new parse (some s) = default_settings) ∧
    (∀ parse s e mem, parse s = .error e →
      SettingsManager.load_from_disk parse (some s) mem =
        (.error ("Failed to parse settings: " ++ e), mem)) ∧
    (∀ parse, AuthManager.new parse none = none) ∧
    (∀ parse s e, parse s = .error e → AuthManager.new parse (some s) = none) ∧
    (∀ parse s e mem, parse s = .error e →
      AuthManager.load_from_disk parse (some s) mem =
        (.error ("Failed to parse auth data: " ++ e), mem)) := by
  refine ⟨fun parse => rfl, ?_, ?_, fun parse => rfl, ?_, ?_,
    fun parse => rfl, ?_, ?_⟩
  · intro parse s e he
    unfold AuthPreferencesManager.new AuthPreferencesManager.load_from_disk
    dsimp only
    rw [he]
  · intro parse s e mem he
    unfold AuthPreferencesManager.load_from_disk
    dsimp only
    rw [he]
  · intro parse s e he
    unfold SettingsManager.new SettingsManager.load_from_disk
    dsimp only
    rw [he]
  · intro parse s e mem he
    unfold SettingsManager.load_from_disk
    dsimp only
    rw [he]
  · intro parse s e he
    unfold AuthManager.new AuthManager.load_from_disk
    dsimp only
    rw [he]
  · intro parse s e mem he
    unfold AuthManager.load_from_disk
    dsimp only
    rw [he]

/-- Witness for C8 at a concrete failing parser: construction degrades
to the default and the load reports the parse error with the prior
record kept. -/
theorem C8_witness :
    AuthPreferencesManager.new (fun _ => .error "bad") (some "junk")
        = AuthPreferences.default ∧
    SettingsManager.load_from_disk (fun _ => .error "bad") (some "junk")
        default_settings
      = (.error ("Failed to parse settings: " ++ "bad"), default_settings) :=
  ⟨C8_store_construction_tolerance.2.1 _ "junk" "bad" rfl,
    C8_store_construction_tolerance.2.2.2.2.2.1 _ "junk" "bad" default_settings rfl⟩

/-- C9: in every state of an `AuthManager`, the getters and
`is_authenticated` agree — either authenticated with user, token and
refresh token all present, or unauthenticated with all three absent. -/
theorem C9_auth_state_coherence (s : Option AuthData) :
    (AuthManager.is_authenticated s = true ∧
      (AuthManager.get_user s).isSome = true ∧
      (AuthManager.get_token s).isSome = true ∧
      (AuthManager.get_refresh_token s).isSome = true) ∨
    (AuthManager.is_authenticated s = false ∧
      AuthManager.get_user s = none ∧
      AuthManager.get_token s = none ∧
      AuthManager.get_refresh_token s = none) := by
  cases s with
  | none =>
      right
      exact ⟨rfl, rfl, rfl, rfl⟩
  | some data =>
      left
      exact ⟨rfl, rfl, rfl, rfl⟩

/-- C10: the default `AuthPreferences` has `remember_me = false`,
`remember_password = false` and `sign_in_automatically = true`, so
`clear_preferences` turns automatic sign-in back on from any prior
state. -/
theorem C10_default_and_clear :
    AuthPreferences.default.remember_me = false ∧
    AuthPreferences.default.remember_password = false ∧
    AuthPreferences.default.sign_in_automatically = true ∧
    ∀ s : AuthPreferences,
      (AuthPreferencesManager.clear_preferences s).sign_in_automatically
        = true :=
  ⟨rfl, rfl, rfl, fun _ => rfl⟩
